import Mathlib

/-!
Verification of the synchronous-circuit designs in `5_fsm/fsm.py`
(counter with enable/reset, debouncer, classic 4-state FSM).

Shallow-embedding conventions, following the two-phase register discipline
of the underlying HDL library: at each rising clock edge every
`@seq_logic` block reads the signals' *current* values and stages `.next`
values, and all staged values commit simultaneously at the edge.  A signal
with no `.next` assignment in a cycle holds its value.  A bus of width `w`
wraps modulo `2 ^ w`.  For a run, `run inp t` is the register state after
`t` clock edges, where edge number `t` samples the input `inp t`; all
registers start at 0 (`false`).

The FSM's symbolic states `State('A', 'B', 'C', 'D')` are encoded in
declaration order: A = 0, B = 1, C = 2, D = 3; the state register is
modelled as a natural number so that values outside the enumeration can be
discussed (the `else` branches of the source).
-/

namespace EslLab

/-- Staged next value of the `counter_en_rst` register (fsm.py lines
34-42): on each rising clock edge, if the reset wire is asserted the count
is cleared to 0; else if the enable wire is asserted the count increments
modulo `2 ^ W` (`W` = bus width); else the count holds.  (The chunk body
reads the module-level wires bound to its `rst_i` / `en_i` ports.) -/
def counter_en_rst_next (W : ℕ) (rst en : Bool) (cnt : ℕ) : ℕ :=
  if rst then 0
  else if en then (cnt + 1) % 2 ^ W
  else cnt

/-- Register state of `debouncer` (fsm.py lines 106-141): the down-counter
`debounce_cnt`, the previous raw input `prev_button`, and the registered
output `button_o` (assigned in its own `@seq_logic` block, hence a
register of this machine). -/
structure DebState where
  debounce_cnt : ℕ
  prev_button : Bool
  button_o : Bool
  deriving Repr, DecidableEq

/-- One clock edge of `debouncer` (fsm.py lines 120-141) with raw input
`button_i`: both `@seq_logic` blocks fire on the same edge reading the
current state.  If the input equals `prev_button`, the counter decrements
unless already 0 (no assignment means hold); otherwise it is reloaded with
`debounce_time`.  `prev_button` always captures the input.  The output
register takes `prev_button` exactly when the current counter is 0, else
it holds. -/
def debouncer_step (debounce_time : ℕ) (button_i : Bool) (s : DebState) : DebState where
  debounce_cnt :=
    if button_i = s.prev_button then
      if s.debounce_cnt ≠ 0 then s.debounce_cnt - 1 else s.debounce_cnt
    else debounce_time
  prev_button := button_i
  button_o := if s.debounce_cnt = 0 then s.prev_button else s.button_o

/-- Reset state of the debouncer registers (all signals initialize to 0). -/
def debouncer_init : DebState := ⟨0, false, false⟩

/-- Debouncer run from an arbitrary starting state: `debouncer_runFrom W b
s t` is the register state after `t` clock edges, edge `t` sampling the
raw input `b t`. -/
def debouncer_runFrom (W : ℕ) (b : ℕ → Bool) (s : DebState) : ℕ → DebState
  | 0 => s
  | t + 1 => debouncer_step W (b t) (debouncer_runFrom W b s t)

/-- Debouncer run from the reset state. -/
def debouncer_run (W : ℕ) (b : ℕ → Bool) (t : ℕ) : DebState :=
  debouncer_runFrom W b debouncer_init t

/-- The `detect_chg` combinational block of `classic_fsm` (fsm.py lines
204-206), per bit: `input_chgs = dbnc_inputs & ~prev_inputs` is a
rising-edge detector on the debounced inputs. -/
def detect_chg (dbnc prev : Bool) : Bool := dbnc && !prev

/-- The `next_state_logic` block of `classic_fsm` (fsm.py lines 208-234),
returning the staged `(fsm_state, reset_cnt)` pair.  `reset_cnt` is a
2-bit bus (`max = 2 ^ 2`); while `reset_cnt < max - 1` the state is forced
to A and the counter increments (startup lockout).  Afterwards the
transition table applies, `input_chgs[0]` (edge `e0`) taking priority over
`input_chgs[1]` (edge `e1`); with no edge the state holds, and a state
value outside the enumeration falls to the `else` branch forcing A.
Outside the lockout branch `reset_cnt` has no assignment and holds. -/
def next_state_logic (reset_cnt fsm_state : ℕ) (e0 e1 : Bool) : ℕ × ℕ :=
  if reset_cnt < 2 ^ 2 - 1 then
    (0, (reset_cnt + 1) % 2 ^ 2)
  else if fsm_state = 0 then
    (if e0 then 1 else if e1 then 3 else fsm_state, reset_cnt)
  else if fsm_state = 1 then
    (if e0 then 2 else if e1 then 0 else fsm_state, reset_cnt)
  else if fsm_state = 2 then
    (if e0 then 3 else if e1 then 1 else fsm_state, reset_cnt)
  else if fsm_state = 3 then
    (if e0 then 0 else if e1 then 2 else fsm_state, reset_cnt)
  else
    (0, reset_cnt)

/-- The `output_logic` combinational block of `classic_fsm` (fsm.py lines
238-249): one-hot encoding of the current state, with the diagnostic
pattern `0b1111` for any value outside the enumeration. -/
def output_logic (fsm_state : ℕ) : ℕ :=
  if fsm_state = 0 then 0b0001
  else if fsm_state = 1 then 0b0010
  else if fsm_state = 2 then 0b0100
  else if fsm_state = 3 then 0b1000
  else 0b1111

/-- Register state of `classic_fsm` relevant to its sequential block: the
state register and the 2-bit startup-lockout counter `reset_cnt`. -/
structure FsmState where
  fsm_state : ℕ
  reset_cnt : ℕ
  deriving Repr, DecidableEq

/-- Reset state of `classic_fsm`: state A, `reset_cnt = 0`. -/
def fsm_init : FsmState := ⟨0, 0⟩

/-- One clock edge of `classic_fsm`'s sequential block, driven by the
detected edge events `ev = (input_chgs[0], input_chgs[1])`. -/
def fsm_step (ev : Bool × Bool) (s : FsmState) : FsmState :=
  ⟨(next_state_logic s.reset_cnt s.fsm_state ev.1 ev.2).1,
   (next_state_logic s.reset_cnt s.fsm_state ev.1 ev.2).2⟩

/-- FSM run from an arbitrary starting state under an edge-event trace
`e`: edge `t` consumes the event pair `e t`. -/
def fsm_runFrom (e : ℕ → Bool × Bool) (s : FsmState) : ℕ → FsmState
  | 0 => s
  | t + 1 => fsm_step (e t) (fsm_runFrom e s t)

/-- FSM run from the reset state. -/
def fsm_run (e : ℕ → Bool × Bool) (t : ℕ) : FsmState :=
  fsm_runFrom e fsm_init t

/-- Claim C2: enable/reset counter priority — for every clock edge of
`counter_en_rst`, an asserted reset stages 0 (for either value of enable,
so reset strictly dominates enable); otherwise an asserted enable stages
the increment modulo `2 ^ W`; otherwise the count holds. -/
theorem counter_en_rst_priority (W cnt : ℕ) (en : Bool) :
    counter_en_rst_next W true en cnt = 0 ∧
    counter_en_rst_next W false true cnt = (cnt + 1) % 2 ^ W ∧
    counter_en_rst_next W false false cnt = cnt :=
  ⟨rfl, rfl, rfl⟩

lemma debouncer_run_zero_cnt (b : ℕ → Bool) (t : ℕ) :
    (debouncer_run 0 b t).debounce_cnt = 0 := by
  induction t with
  | zero => rfl
  | succ t ih =>
    simp only [debouncer_run, debouncer_runFrom, debouncer_step] at ih ⊢
    rw [ih]
    split <;> simp

/-- Claim C9: with window `W = 0` the debouncer degenerates to a
pass-through with exactly one cycle of registration delay — for every
input trace, the output register committed at edge `t + 1` (the state
after `t + 2` edges) equals the raw input sampled one cycle earlier, at
edge `t`. -/
theorem debounce_zero_window_passthrough (b : ℕ → Bool) (t : ℕ) :
    (debouncer_run 0 b (t + 2)).button_o = b t := by
  have hc := debouncer_run_zero_cnt b (t + 1)
  show (debouncer_step 0 (b (t + 1)) (debouncer_run 0 b (t + 1))).button_o = b t
  simp only [debouncer_step, hc, if_pos rfl, if_true]
  show (debouncer_step 0 (b t) (debouncer_run 0 b t)).prev_button = b t
  rfl

lemma fsm_step_reset_cnt (ev : Bool × Bool) (s : FsmState) :
    (fsm_step ev s).reset_cnt =
      if s.reset_cnt < 2 ^ 2 - 1 then (s.reset_cnt + 1) % 2 ^ 2 else s.reset_cnt := by
  unfold fsm_step next_state_logic
  split
  · rfl
  · split_ifs <;> rfl

lemma fsm_step_lockout (ev : Bool × Bool) (s : FsmState) (h : s.reset_cnt < 2 ^ 2 - 1) :
    fsm_step ev s = ⟨0, (s.reset_cnt + 1) % 2 ^ 2⟩ := by
  unfold fsm_step next_state_logic
  rw [if_pos h]

/-- Claim C5: FSM startup lockout — for every edge-event trace (hence
regardless of input activity), during the first `max - 1 = 3` clock edges
after construction the state register stays at A (state 0) and the 2-bit
`reset_cnt` counter increments on every edge, so after `t ≤ 3` edges it
holds `t`. -/
theorem fsm_startup_lockout (e : ℕ → Bool × Bool) (t : ℕ) (ht : t ≤ 2 ^ 2 - 1) :
    (fsm_run e t).fsm_state = 0 ∧ (fsm_run e t).reset_cnt = t := by
  norm_num at ht
  have key : ∀ k : ℕ, k ≤ 3 → fsm_run e k = ⟨0, k⟩ := by
    intro k hk
    induction k with
    | zero => rfl
    | succ n ih =>
      have hn : n ≤ 3 := by omega
      have hrun : fsm_run e (n + 1) = fsm_step (e n) (fsm_run e n) := rfl
      rw [hrun, ih hn, fsm_step_lockout]
      · simp only [FsmState.mk.injEq, true_and]
        show (n + 1) % 4 = n + 1
        omega
      · show n < 2 ^ 2 - 1
        omega
  rw [key t ht]
  exact ⟨rfl, rfl⟩

/-- Witness for `fsm_startup_lockout` at a concrete always-active trace
and `t = 3`. -/
theorem fsm_startup_lockout_witness :
    (fsm_run (fun _ => (true, true)) 3).fsm_state = 0 ∧
    (fsm_run (fun _ => (true, true)) 3).reset_cnt = 3 :=
  fsm_startup_lockout (fun _ => (true, true)) 3 (by norm_num)

lemma next_state_logic_expired (rc : ℕ) (hrc : ¬ rc < 2 ^ 2 - 1) (s : ℕ) (e0 e1 : Bool) :
    next_state_logic rc s e0 e1 =
      (if s = 0 then (if e0 then 1 else if e1 then 3 else s, rc)
       else if s = 1 then (if e0 then 2 else if e1 then 0 else s, rc)
       else if s = 2 then (if e0 then 3 else if e1 then 1 else s, rc)
       else if s = 3 then (if e0 then 0 else if e1 then 2 else s, rc)
       else (0, rc)) := by
  unfold next_state_logic
  rw [if_neg hrc]

/-- Claim C1: FSM transition determinism — once the startup lockout has
expired (`reset_cnt` no longer below `max - 1`), the next-state function
follows the table A:fwd→B/bck→D, B:fwd→C/bck→A, C:fwd→D/bck→B,
D:fwd→A/bck→C, with `input_chgs[0]` taking priority over `input_chgs[1]`
(the fwd rows hold for either value of `e1`) and the state holding when no
edge fires; in particular from state A the edge events [fwd, fwd, bck] on
three successive qualifying cycles (`reset_cnt` stays put) give the state
sequence A→B→C→B, and the output code of the final state B is `0b0010`.
Determinism itself is immediate: `next_state_logic` is a function of the
current state and edges. -/
theorem fsm_transition_determinism (rc : ℕ) (hrc : ¬ rc < 2 ^ 2 - 1) :
    (∀ e1, (next_state_logic rc 0 true e1).1 = 1) ∧
    (next_state_logic rc 0 false true).1 = 3 ∧
    (∀ e1, (next_state_logic rc 1 true e1).1 = 2) ∧
    (next_state_logic rc 1 false true).1 = 0 ∧
    (∀ e1, (next_state_logic rc 2 true e1).1 = 3) ∧
    (next_state_logic rc 2 false true).1 = 1 ∧
    (∀ e1, (next_state_logic rc 3 true e1).1 = 0) ∧
    (next_state_logic rc 3 false true).1 = 2 ∧
    (∀ s, s < 4 → (next_state_logic rc s false false).1 = s) ∧
    next_state_logic rc 0 true false = (1, rc) ∧
    next_state_logic rc 1 true false = (2, rc) ∧
    next_state_logic rc 2 false true = (1, rc) ∧
    output_logic 1 = 0b0010 := by
  have hx := next_state_logic_expired rc hrc
  refine ⟨fun e1 => ?_, ?_, fun e1 => ?_, ?_, fun e1 => ?_, ?_, fun e1 => ?_, ?_,
    fun s hs => ?_, ?_, ?_, ?_, rfl⟩ <;>
    (try interval_cases s) <;> simp [hx]

/-- Witness for `fsm_transition_determinism` at the concrete lockout-expired
counter value 3, extracting the priority entry for state A and the final
output code of the example sequence. -/
theorem fsm_transition_determinism_witness :
    (next_state_logic 3 0 true true).1 = 1 ∧
    next_state_logic 3 2 false true = (1, 3) ∧
    output_logic 1 = 0b0010 :=
  ⟨(fsm_transition_determinism 3 (by norm_num)).1 true,
   (fsm_transition_determinism 3 (by norm_num)).2.2.2.2.2.2.2.2.2.2.2.1,
   (fsm_transition_determinism 3 (by norm_num)).2.2.2.2.2.2.2.2.2.2.2.2⟩

lemma next_state_logic_lt_four (rc s : ℕ) (e0 e1 : Bool) :
    (next_state_logic rc s e0 e1).1 < 4 := by
  unfold next_state_logic
  split_ifs <;> simp_all

/-- Claim C7: one-hot invariant — every FSM state reachable under the
transition table from reset lies in {A, B, C, D} (encoded 0..3), and for
each such state the 4-bit combinational output `output_logic` (a function
of the current state only) has exactly one of its four bits set, following
A→0001, B→0010, C→0100, D→1000 (i.e. state `s` maps to `2 ^ s`). -/
theorem fsm_onehot_invariant :
    (∀ (e : ℕ → Bool × Bool) (t : ℕ), (fsm_run e t).fsm_state < 4) ∧
    (∀ s, s < 4 →
      output_logic s = 2 ^ s ∧
      ((Finset.range 4).filter (fun i => (output_logic s).testBit i)).card = 1) := by
  constructor
  · intro e t
    induction t with
    | zero => norm_num [fsm_run, fsm_runFrom, fsm_init]
    | succ t ih => exact next_state_logic_lt_four _ _ _ _
  · intro s hs
    interval_cases s <;> exact ⟨rfl, by decide⟩

/-- Witness for `fsm_onehot_invariant` at state D (encoded 3). -/
theorem fsm_onehot_invariant_witness :
    output_logic 3 = 2 ^ 3 ∧
    ((Finset.range 4).filter (fun i => (output_logic 3).testBit i)).card = 1 :=
  fsm_onehot_invariant.2 3 (by norm_num)

/-- Claim C8: unrecognized-state error handling — if the state register
holds a value outside the enumeration {A, B, C, D} (encodings 0..3), the
output encoder emits the diagnostic pattern `0b1111` for that cycle, and
the next-state logic stages the initial state A (0) on the next clock edge
whatever the lockout counter and edge inputs are. -/
theorem fsm_unknown_state_recovery (s : ℕ) (hs : ¬ s < 4) :
    output_logic s = 0b1111 ∧
    ∀ (rc : ℕ) (e0 e1 : Bool), (next_state_logic rc s e0 e1).1 = 0 := by
  have h0 : s ≠ 0 := by omega
  have h1 : s ≠ 1 := by omega
  have h2 : s ≠ 2 := by omega
  have h3 : s ≠ 3 := by omega
  refine ⟨by simp [output_logic, h0, h1, h2, h3], fun rc e0 e1 => ?_⟩
  by_cases hrc : rc < 2 ^ 2 - 1
  · unfold next_state_logic
    rw [if_pos hrc]
  · rw [next_state_logic_expired rc hrc]
    simp [h0, h1, h2, h3]

/-- Witness for `fsm_unknown_state_recovery` at the out-of-range state
value 4 with an expired lockout counter. -/
theorem fsm_unknown_state_recovery_witness :
    output_logic 4 = 0b1111 ∧ (next_state_logic 3 4 true false).1 = 0 :=
  ⟨(fsm_unknown_state_recovery 4 (by norm_num)).1,
   (fsm_unknown_state_recovery 4 (by norm_num)).2 3 true false⟩

/-- Claim C10: one-shot startup lockout — `reset_cnt` is staged only in
the lockout branch, so per edge it is non-decreasing, stays at most
`max - 1 = 3`, and holds whenever the lockout has expired; along any run
from reset it equals `min t 3` after `t` edges, so from edge 3 onwards the
lockout-branch condition `reset_cnt < max - 1` never holds again. -/
theorem fsm_lockout_one_shot (e : ℕ → Bool × Bool) :
    (∀ (s : FsmState) (ev : Bool × Bool), s.reset_cnt ≤ (fsm_step ev s).reset_cnt) ∧
    (∀ (s : FsmState) (ev : Bool × Bool),
      s.reset_cnt ≤ 2 ^ 2 - 1 → (fsm_step ev s).reset_cnt ≤ 2 ^ 2 - 1) ∧
    (∀ (s : FsmState) (ev : Bool × Bool),
      ¬ s.reset_cnt < 2 ^ 2 - 1 → (fsm_step ev s).reset_cnt = s.reset_cnt) ∧
    (∀ t, (fsm_run e t).reset_cnt = min t (2 ^ 2 - 1)) ∧
    (∀ t, 2 ^ 2 - 1 ≤ t → ¬ (fsm_run e t).reset_cnt < 2 ^ 2 - 1) := by
  have hrun : ∀ t, (fsm_run e t).reset_cnt = min t (2 ^ 2 - 1) := by
    intro t
    induction t with
    | zero => norm_num [fsm_run, fsm_runFrom, fsm_init]
    | succ t ih =>
      have h : fsm_run e (t + 1) = fsm_step (e t) (fsm_run e t) := rfl
      rw [h, fsm_step_reset_cnt, ih]
      norm_num
      split_ifs <;> omega
  refine ⟨fun s ev => ?_, fun s ev hle => ?_, fun s ev hge => ?_, hrun, fun t ht => ?_⟩
  · rw [fsm_step_reset_cnt]
    split_ifs with h
    · norm_num at h ⊢
      omega
    · exact le_refl _
  · rw [fsm_step_reset_cnt]
    split_ifs with h
    · norm_num at h ⊢
      omega
    · exact hle
  · rw [fsm_step_reset_cnt, if_neg hge]
  · rw [hrun t]
    norm_num at ht ⊢
    omega

/-- Witness for `fsm_lockout_one_shot` at a concrete trace: the counter
holds once at its cap in a step, and after 5 edges from reset the lockout
condition is false. -/
theorem fsm_lockout_one_shot_witness :
    (fsm_step (true, true) (⟨2, 3⟩ : FsmState)).reset_cnt = (⟨2, 3⟩ : FsmState).reset_cnt ∧
    ¬ (fsm_run (fun _ => (false, true)) 5).reset_cnt < 2 ^ 2 - 1 :=
  ⟨(fsm_lockout_one_shot (fun _ => (false, true))).2.2.1 ⟨2, 3⟩ (true, true) (by norm_num),
   (fsm_lockout_one_shot (fun _ => (false, true))).2.2.2.2 5 (by norm_num)⟩

lemma debouncer_step_cnt (W : ℕ) (bi : Bool) (s : DebState) :
    (debouncer_step W bi s).debounce_cnt =
      if bi = s.prev_button then
        if s.debounce_cnt ≠ 0 then s.debounce_cnt - 1 else s.debounce_cnt
      else W := rfl

lemma debouncer_step_prev (W : ℕ) (bi : Bool) (s : DebState) :
    (debouncer_step W bi s).prev_button = bi := rfl

lemma debouncer_step_out (W : ℕ) (bi : Bool) (s : DebState) :
    (debouncer_step W bi s).button_o =
      if s.debounce_cnt = 0 then s.prev_button else s.button_o := rfl

lemma debounce_propagation_inv (W : ℕ) (v : Bool) (c0 : ℕ) (b : ℕ → Bool)
    (hb : ∀ t, b t = v) (t : ℕ) :
    (t = 0 ∧ debouncer_runFrom W b ⟨c0, !v, !v⟩ t = ⟨c0, !v, !v⟩)
    ∨ (1 ≤ t ∧ t ≤ W + 1 ∧ debouncer_runFrom W b ⟨c0, !v, !v⟩ t = ⟨W - (t - 1), v, !v⟩)
    ∨ (W + 2 ≤ t ∧ debouncer_runFrom W b ⟨c0, !v, !v⟩ t = ⟨0, v, v⟩) := by
  induction t with
  | zero => exact Or.inl ⟨rfl, rfl⟩
  | succ t ih =>
    have hstep : debouncer_runFrom W b ⟨c0, !v, !v⟩ (t + 1)
        = debouncer_step W (b t) (debouncer_runFrom W b ⟨c0, !v, !v⟩ t) := rfl
    rcases ih with ⟨ht, hs⟩ | ⟨ht1, ht2, hs⟩ | ⟨ht, hs⟩
    · refine Or.inr (Or.inl ⟨by omega, by omega, ?_⟩)
      subst ht
      rw [hstep, hs, hb 0]
      cases v <;> simp [debouncer_step]
    · rcases Nat.lt_or_ge t (W + 1) with h | h
      · refine Or.inr (Or.inl ⟨by omega, by omega, ?_⟩)
        have hne : W - (t - 1) ≠ 0 := by omega
        have hcnt : W - (t - 1) - 1 = W - (t + 1 - 1) := by omega
        rw [hstep, hs, hb t]
        simp [debouncer_step, hne, hcnt, DebState.mk.injEq]
      · refine Or.inr (Or.inr ⟨by omega, ?_⟩)
        have h0 : W - (t - 1) = 0 := by omega
        rw [hstep, hs, hb t, h0]
        simp [debouncer_step]
    · refine Or.inr (Or.inr ⟨by omega, ?_⟩)
      rw [hstep, hs, hb t]
      simp [debouncer_step]

/-- Claim C4: debounce propagation timing — if the raw input flips to `v`
at edge 0 (the stored previous value and the settled output being `!v`)
and stays at `v`, the registered stable output still reads `!v` after
every edge up to `W + 1` and reads `v` after every later edge; that is,
the output register commits the new value exactly at edge `W + 1`: `W`
cycles for the down-counter to reach 0 plus the one-cycle registration
latency of the output register.  For `W = 3` this is the concrete case of
the spec: the output changes at clock edge 4 and stays `1` thereafter. -/
theorem debounce_propagation (W : ℕ) (v : Bool) (c0 : ℕ) (b : ℕ → Bool)
    (hb : ∀ t, b t = v) :
    (∀ t, t ≤ W + 1 → (debouncer_runFrom W b ⟨c0, !v, !v⟩ t).button_o = !v) ∧
    (∀ t, W + 2 ≤ t → (debouncer_runFrom W b ⟨c0, !v, !v⟩ t).button_o = v) := by
  constructor
  · intro t ht
    rcases debounce_propagation_inv W v c0 b hb t with ⟨_, hs⟩ | ⟨_, _, hs⟩ | ⟨ht', _⟩
    · rw [hs]
    · rw [hs]
    · omega
  · intro t ht
    rcases debounce_propagation_inv W v c0 b hb t with ⟨ht', _⟩ | ⟨_, ht', _⟩ | ⟨_, hs⟩
    · omega
    · omega
    · rw [hs]

/-- Witness for `debounce_propagation` at the spec's concrete case:
window 3, raw input `0 → 1` at step 0 and held high; the output is still
low after edge 4's predecessor state (edge count 4) and high after edge
counts 5 and 11 (input held through step 10). -/
theorem debounce_propagation_witness :
    (debouncer_runFrom 3 (fun _ => true) ⟨0, !true, !true⟩ 4).button_o = !true ∧
    (debouncer_runFrom 3 (fun _ => true) ⟨0, !true, !true⟩ 5).button_o = true ∧
    (debouncer_runFrom 3 (fun _ => true) ⟨0, !true, !true⟩ 11).button_o = true :=
  ⟨(debounce_propagation 3 true 0 (fun _ => true) (fun _ => rfl)).1 4 (by norm_num),
   (debounce_propagation 3 true 0 (fun _ => true) (fun _ => rfl)).2 5 (by norm_num),
   (debounce_propagation 3 true 0 (fun _ => true) (fun _ => rfl)).2 11 (by norm_num)⟩

lemma debounce_suppression_inv (W k c0 : ℕ) (v : Bool) (b : ℕ → Bool)
    (hk : 1 ≤ k) (hkW : k < W)
    (hb1 : ∀ t, t < k → b t = !v) (hb2 : ∀ t, k ≤ t → b t = v) (t : ℕ) :
    (t = 0 ∧ debouncer_runFrom W b ⟨c0, v, v⟩ t = ⟨c0, v, v⟩)
    ∨ (1 ≤ t ∧ t ≤ k ∧ debouncer_runFrom W b ⟨c0, v, v⟩ t = ⟨W - (t - 1), !v, v⟩)
    ∨ (k + 1 ≤ t ∧ (debouncer_runFrom W b ⟨c0, v, v⟩ t).prev_button = v
        ∧ (debouncer_runFrom W b ⟨c0, v, v⟩ t).button_o = v) := by
  induction t with
  | zero => exact Or.inl ⟨rfl, rfl⟩
  | succ t ih =>
    have hstep : debouncer_runFrom W b ⟨c0, v, v⟩ (t + 1)
        = debouncer_step W (b t) (debouncer_runFrom W b ⟨c0, v, v⟩ t) := rfl
    rcases ih with ⟨ht, hs⟩ | ⟨ht1, ht2, hs⟩ | ⟨ht, hp, ho⟩
    · refine Or.inr (Or.inl ⟨by omega, by omega, ?_⟩)
      subst ht
      rw [hstep, hs, hb1 0 hk]
      cases v <;> simp [debouncer_step]
    · rcases Nat.lt_or_ge t k with h | h
      · refine Or.inr (Or.inl ⟨by omega, by omega, ?_⟩)
        have hne : W - (t - 1) ≠ 0 := by omega
        have hcnt : W - (t - 1) - 1 = W - (t + 1 - 1) := by omega
        rw [hstep, hs, hb1 t h]
        simp [debouncer_step, hne, hcnt, DebState.mk.injEq]
      · have hne : W - (t - 1) ≠ 0 := by omega
        have hres : debouncer_runFrom W b ⟨c0, v, v⟩ (t + 1) = ⟨W, v, v⟩ := by
          rw [hstep, hs, hb2 t (by omega)]
          cases v <;> simp [debouncer_step, hne]
        exact Or.inr (Or.inr ⟨by omega, by rw [hres], by rw [hres]⟩)
    · refine Or.inr (Or.inr ⟨by omega, ?_, ?_⟩)
      · rw [hstep, hb2 t (by omega)]
        exact debouncer_step_prev W v _
      · rw [hstep, hb2 t (by omega), debouncer_step_out, hp, ho]
        exact ite_self v

/-- Claim C3: debounce suppression — for window `W`, if from a settled
state (previous value and output both `v`, counter arbitrary) the raw
input changes to `!v` and changes back to `v` after `k < W` cycles, the
stable output never changes: it reads `v` after every clock edge of the
entire run. -/
theorem debounce_suppression (W k c0 : ℕ) (v : Bool) (b : ℕ → Bool)
    (hk : 1 ≤ k) (hkW : k < W)
    (hb1 : ∀ t, t < k → b t = !v) (hb2 : ∀ t, k ≤ t → b t = v) (t : ℕ) :
    (debouncer_runFrom W b ⟨c0, v, v⟩ t).button_o = v := by
  rcases debounce_suppression_inv W k c0 v b hk hkW hb1 hb2 t
    with ⟨_, hs⟩ | ⟨_, _, hs⟩ | ⟨_, _, ho⟩
  · rw [hs]
  · rw [hs]
  · exact ho

/-- Witness for `debounce_suppression`: window 3, output settled high, a
2-cycle low glitch (shorter than the window) starting at edge 0; after 6
edges the output still reads high. -/
theorem debounce_suppression_witness :
    (debouncer_runFrom 3 (fun t => decide (2 ≤ t)) ⟨0, true, true⟩ 6).button_o = true :=
  debounce_suppression 3 2 0 true (fun t => decide (2 ≤ t)) (by norm_num) (by norm_num)
    (fun t ht => by simp only [Bool.not_true, decide_eq_false_iff_not]; omega)
    (fun t ht => by simp only [decide_eq_true_eq]; exact ht) 6

/-- Counterexample to claim C6 as stated: the clause "the stable output
equals the stored previous input whenever the counter is at 0" fails as a
per-state invariant of reachable states.  With window 2 and the raw input
held high from reset, after 3 clock edges the counter has reached 0 while
the output register (which only samples `prev_button` on the *next* edge)
still reads the old value: `debounce_cnt = 0` but `button_o ≠
prev_button`. -/
theorem debounce_invariant_counterexample :
    (debouncer_run 2 (fun _ => true) 3).debounce_cnt = 0 ∧
    (debouncer_run 2 (fun _ => true) 3).button_o ≠
      (debouncer_run 2 (fun _ => true) 3).prev_button := by
  decide

/-- Claim C6 (amended): for every run of the debouncer with window `W`,
the down-counter stays within `[0, W]` and hence within the
`ceil(log2(W+1))`-bit range the source allocates for it; on each clock
edge it is reset to `W` whenever the raw input differs from the stored
previous value, decremented when they agree and it is nonzero, and held at
0 otherwise; and on each clock edge at which the counter is 0 the
registered stable output is updated to the stored previous input (so it
equals it one cycle later, not necessarily in the same state). -/
theorem debounce_state_invariant (W : ℕ) (b : ℕ → Bool) :
    (∀ t, (debouncer_run W b t).debounce_cnt ≤ W) ∧
    (∀ t, (debouncer_run W b t).debounce_cnt < 2 ^ Nat.clog 2 (W + 1)) ∧
    (∀ (s : DebState) (bi : Bool),
      (bi ≠ s.prev_button → (debouncer_step W bi s).debounce_cnt = W) ∧
      (bi = s.prev_button → s.debounce_cnt ≠ 0 →
        (debouncer_step W bi s).debounce_cnt = s.debounce_cnt - 1) ∧
      (bi = s.prev_button → s.debounce_cnt = 0 →
        (debouncer_step W bi s).debounce_cnt = 0) ∧
      (s.debounce_cnt = 0 → (debouncer_step W bi s).button_o = s.prev_button)) := by
  have hle : ∀ t, (debouncer_run W b t).debounce_cnt ≤ W := by
    intro t
    induction t with
    | zero => exact Nat.zero_le W
    | succ t ih =>
      show (debouncer_step W (b t) (debouncer_run W b t)).debounce_cnt ≤ W
      rw [debouncer_step_cnt]
      split_ifs <;> omega
  have hpow : W + 1 ≤ 2 ^ Nat.clog 2 (W + 1) := Nat.le_pow_clog (by norm_num) (W + 1)
  refine ⟨hle, fun t => by have := hle t; omega, fun s bi => ⟨?_, ?_, ?_, ?_⟩⟩
  · intro h
    simp [debouncer_step_cnt, h]
  · intro h hne
    simp [debouncer_step_cnt, h, hne]
  · intro h h0
    simp [debouncer_step_cnt, h, h0]
  · intro h0
    simp [debouncer_step_out, h0]

/-- Witness for `debounce_state_invariant` at window 3: the range bound
after 5 edges of a constant-high run, and each edge rule at a concrete
state. -/
theorem debounce_state_invariant_witness :
    (debouncer_run 3 (fun _ => true) 5).debounce_cnt ≤ 3 ∧
    (debouncer_step 3 true ⟨0, false, true⟩).debounce_cnt = 3 ∧
    (debouncer_step 3 false ⟨2, false, true⟩).debounce_cnt = 1 ∧
    (debouncer_step 3 false ⟨0, false, true⟩).debounce_cnt = 0 ∧
    (debouncer_step 3 false ⟨0, true, false⟩).button_o = true :=
  ⟨(debounce_state_invariant 3 (fun _ => true)).1 5,
   ((debounce_state_invariant 3 (fun _ => true)).2.2 ⟨0, false, true⟩ true).1 (by decide),
   ((debounce_state_invariant 3 (fun _ => true)).2.2 ⟨2, false, true⟩ false).2.1 rfl (by decide),
   ((debounce_state_invariant 3 (fun _ => true)).2.2 ⟨0, false, true⟩ false).2.2.1 rfl rfl,
   ((debounce_state_invariant 3 (fun _ => true)).2.2 ⟨0, true, false⟩ false).2.2.2 rfl⟩

end EslLab
